import Mathlib

/-!
Verification of the s3stats collection-and-aggregation engine (src/s3stats.py).

The Python source is shallowly embedded:

* machine integers are `Nat` (Python ints are unbounded, sizes are non-negative);
* Python exceptions are `Except Err`; a `try ... except: pass` becomes a
  `match` that discards the error;
* the external regular-expression engine (`re.match`) and the glob engine
  (`fnmatch.fnmatch`, which itself compiles the glob to a regex and calls
  `re.match`) are embedded as an executable regular-expression matcher over
  `List Char`, with `re.match`'s documented "match zero or more characters at
  the beginning of the string" semantics;
* `defaultdict(lambda: defaultdict(int))` breakdowns become association lists
  updated in place, a new entry appended on first observation;
* the thread pool (`multiprocessing.dummy.Pool.map`) is embedded by its
  observable value semantics: results are returned in input order, and any
  worker exception is re-raised by `map` (the result list is discarded); with
  at most one failing task the re-raised exception is that task's.
-/

/-- Python exceptions that can surface in the embedded fragment:
`reError` is an `sre_constants.error` raised by the regex engine on an invalid
pattern, `zeroDivision` is `ZeroDivisionError`, `keyError` is a `KeyError` on a
missing dictionary key, and `boto msg` is a storage-layer (boto) exception. -/
inductive Err where
  | reError : Err
  | zeroDivision : Err
  | keyError : Err
  | boto (msg : String) : Err
deriving DecidableEq

/-! ## The regular-expression engine

Model of the external `re` module as used by `ApplyFilters` (directly, and via
`fnmatch`).  A compiled pattern is a `Regex` over single-character tests
(`CTok`); matching is by Brzozowski derivatives.  `reMatch` is `re.match`:
it succeeds iff some prefix of the string (starting at position 0) is in the
pattern's language. -/

/-- One member of a regex character class: a single character or a range. -/
inductive ClsItem where
  | single (c : Char) : ClsItem
  | range (lo hi : Char) : ClsItem
deriving DecidableEq

/-- Does a character satisfy one class member? -/
def itemTest : ClsItem → Char → Bool
  | .single d, c => c = d
  | .range lo hi, c => lo ≤ c && c ≤ hi

/-- A single-character test: `.` (under the DOTALL flag that
`fnmatch.translate` sets, it matches every character), a literal character, or
a character class `[...]` with optional negation. -/
inductive CTok where
  | any : CTok
  | lit (c : Char) : CTok
  | cls (neg : Bool) (items : List ClsItem) : CTok
deriving DecidableEq

/-- Evaluate a single-character test. -/
def ctest : CTok → Char → Bool
  | .any, _ => true
  | .lit d, c => c = d
  | .cls neg items, c =>
      if neg then !(items.any fun it => itemTest it c)
      else items.any fun it => itemTest it c

/-- Regular expressions over single-character tests. -/
inductive Regex where
  | emptypat : Regex
  | eps : Regex
  | tok (t : CTok) : Regex
  | cat (r1 r2 : Regex) : Regex
  | alt (r1 r2 : Regex) : Regex
  | star (r : Regex) : Regex
deriving DecidableEq

/-- Does the regex accept the empty string? -/
def nullable : Regex → Bool
  | .emptypat => false
  | .eps => true
  | .tok _ => false
  | .cat r1 r2 => nullable r1 && nullable r2
  | .alt r1 r2 => nullable r1 || nullable r2
  | .star _ => true

/-- Brzozowski derivative of a regex with respect to one character. -/
def rderiv : Regex → Char → Regex
  | .emptypat, _ => .emptypat
  | .eps, _ => .emptypat
  | .tok t, c => if ctest t c then .eps else .emptypat
  | .cat r1 r2, c =>
      if nullable r1 then .alt (.cat (rderiv r1 c) r2) (rderiv r2 c)
      else .cat (rderiv r1 c) r2
  | .alt r1 r2, c => .alt (rderiv r1 c) (rderiv r2 c)
  | .star r, c => .cat (rderiv r c) (.star r)

/-- Whole-string match: the regex accepts exactly the given characters. -/
def matchFull (r : Regex) (s : List Char) : Bool :=
  nullable (s.foldl rderiv r)

/-- `re.match` semantics: scanning from position 0, succeed as soon as the
characters consumed so far are accepted; i.e. some prefix of `s` is accepted. -/
def reMatch : Regex → List Char → Bool
  | r, [] => nullable r
  | r, c :: s => nullable r || reMatch (rderiv r c) s

/-- The language of a regex, as an inductive predicate.  The `starCons` rule
consumes a non-empty first iteration, which is equivalent to the usual Kleene
star (empty iterations contribute nothing) and gives a usable inversion. -/
inductive Accepts : Regex → List Char → Prop where
  | eps : Accepts .eps []
  | tok {t : CTok} {c : Char} : ctest t c = true → Accepts (.tok t) [c]
  | cat {r1 r2 : Regex} {s1 s2 : List Char} :
      Accepts r1 s1 → Accepts r2 s2 → Accepts (.cat r1 r2) (s1 ++ s2)
  | altL {r1 r2 : Regex} {s : List Char} : Accepts r1 s → Accepts (.alt r1 r2) s
  | altR {r1 r2 : Regex} {s : List Char} : Accepts r2 s → Accepts (.alt r1 r2) s
  | starNil {r : Regex} : Accepts (.star r) []
  | starCons {r : Regex} {c : Char} {s1 s2 : List Char} :
      Accepts r (c :: s1) → Accepts (.star r) s2 →
      Accepts (.star r) (c :: s1 ++ s2)

/-! ## The glob engine

`fnmatch.fnmatch(name, pattern)` (on a case-sensitive platform, where
`os.path.normcase` is the identity) translates the glob pattern to a regular
expression — `*` to `.*`, `?` to `.`, `[...]` to a character class, anything
else to an escaped literal — terminated by `\Z` under `(?ms)`, and runs
`re.match` on it; the trailing `\Z` makes this a whole-string match.  The
translation loop below mirrors `fnmatch.translate`: on `[` it scans for the
closing `]` (an immediately following `!` and then `]` are part of the class
body), falling back to a literal `[` when the class is unterminated. -/

/-- Scan up to the next `]`: returns the characters before it and the rest
after it, or `none` when there is no `]`. -/
def findClose : List Char → Option (List Char × List Char)
  | [] => none
  | c :: cs =>
      if c = ']' then some ([], cs)
      else
        match findClose cs with
        | none => none
        | some (content, rest) => some (c :: content, rest)

/-- The class-body scan of `fnmatch.translate`: given the characters after
`[`, return the class body (`stuff`) and the remainder after the closing `]`.
A leading `!`, and a `]` right after it (or right at the start), belong to the
body. -/
def scanClass : List Char → Option (List Char × List Char)
  | '!' :: ']' :: rest =>
      (findClose rest).map fun p => ('!' :: ']' :: p.1, p.2)
  | '!' :: rest => (findClose rest).map fun p => ('!' :: p.1, p.2)
  | ']' :: rest => (findClose rest).map fun p => (']' :: p.1, p.2)
  | cs => findClose cs

/-- Parse a regex character-class body into members, with `a-b` ranges; a `-`
without a right neighbour is a literal member. -/
def parseItems : List Char → List ClsItem
  | [] => []
  | a :: '-' :: b :: rest => .range a b :: parseItems rest
  | a :: rest => .single a :: parseItems rest

/-- Build the class token for a scanned body: a leading `!` negates (it
becomes `^` in the regex), a leading `^` is escaped to a literal member. -/
def classTok : List Char → CTok
  | '!' :: rest => .cls true (parseItems rest)
  | stuff => .cls false (parseItems stuff)

/-- Glob tokens: `*`, or a single-character test (`?`, a literal, a class). -/
inductive GTok where
  | star : GTok
  | tok (t : CTok) : GTok
deriving DecidableEq

/-- The tokenizing loop of `fnmatch.translate`.  The loop consumes at least
one character per iteration, so the explicit bound `fuel` never runs out when
it starts at the pattern's length. -/
def globToksGo : Nat → List Char → List GTok
  | _, [] => []
  | 0, _ :: _ => []
  | fuel + 1, c :: rest =>
      if c = '*' then .star :: globToksGo fuel rest
      else if c = '?' then .tok .any :: globToksGo fuel rest
      else if c = '[' then
        match scanClass rest with
        | none => .tok (.lit '[') :: globToksGo fuel rest
        | some (stuff, rest2) => .tok (classTok stuff) :: globToksGo fuel rest2
      else .tok (.lit c) :: globToksGo fuel rest

/-- Tokenize a glob pattern. -/
def globTokens (cs : List Char) : List GTok :=
  globToksGo cs.length cs

/-- The regex `fnmatch.translate` emits for a token list (before the final
`\Z`): `*` becomes `.*`, a single-character token becomes itself, and the
pieces are concatenated. -/
def toksRegex : List GTok → Regex
  | [] => .eps
  | .star :: rest => .cat (.star (.tok .any)) (toksRegex rest)
  | .tok t :: rest => .cat (.tok t) (toksRegex rest)

/-- `fnmatch.fnmatch(name, pat)`: translate the glob and match the whole name
(the translated regex ends in `\Z`, so the `re.match` inside `fnmatch` is a
whole-string match). -/
def fnmatchB (name : String) (pat : String) : Bool :=
  matchFull (toksRegex (globTokens pat.data)) name.data

/-- Shell-glob matching as the specification words it, over the tokenized
pattern: matched against the full name — anchored at both ends — with `*`
matching any character sequence and a single-character token matching exactly
one character, case-sensitively (`ctest` on a literal is character equality). -/
inductive GlobRel : List GTok → List Char → Prop where
  | nil : GlobRel [] []
  | tok {t : CTok} {p : List GTok} {c : Char} {s : List Char} :
      ctest t c = true → GlobRel p s → GlobRel (.tok t :: p) (c :: s)
  | star {p : List GTok} {s1 s2 : List Char} :
      GlobRel p s2 → GlobRel (.star :: p) (s1 ++ s2)

/-! ## Data model

`Key` is boto's object record as the listing yields it (the attributes
`Stats` reads); `Bucket` is the boto bucket handle: its metadata getters and
the two listing methods are modelled as `Except`-valued collaborator results,
a call that raises becoming `.error`.  `Aggregate` is the result dictionary
built by `Stats`; keys that are only assigned in detail mode are `Option`
fields (`none` = key absent).  The CLI argument bundle `Args` keeps the
fields the collection and rendering read (`args.prefix` is the field `pfx`
here). -/

/-- One listed object (a boto `Key`): the attributes `Stats` reads. -/
structure Key where
  name : String
  size : Nat
  storage_class : String
  encrypted : String
  last_modified : String
deriving DecidableEq

/-- One `{count, size}` cell of a breakdown dictionary. -/
structure SubCount where
  numberOfFiles : Nat
  sizeOfFiles : Nat
deriving DecidableEq

/-- The `defaultdict(lambda: defaultdict(int))` update performed by the two
`result[...][key][...] += ...` pairs: find the entry for the key and add one
object of the given size to it, appending a fresh entry on first
observation. -/
def bump : List (String × SubCount) → String → Nat → List (String × SubCount)
  | [], k, sz => [(k, { numberOfFiles := 1, sizeOfFiles := sz })]
  | (k2, v) :: rest, k, sz =>
      if k2 = k then
        (k2, { numberOfFiles := v.numberOfFiles + 1,
               sizeOfFiles := v.sizeOfFiles + sz }) :: rest
      else (k2, v) :: bump rest k sz

/-- A lifecycle rule as boto exposes it. -/
structure Lc where
  id : String
  lcPfx : String
  status : String
  expDate : String
  expDays : Nat
  transition : String
deriving DecidableEq

/-- The dictionary `LifecycleToDict` builds from a rule. -/
structure LcDict where
  lcPfx : String
  status : String
  expDate : String
  expDays : Nat
  transition : String
deriving DecidableEq

/-- `LifecycleToDict` (src/s3stats.py line 84). -/
def LifecycleToDict (lc : Lc) : LcDict :=
  { lcPfx := lc.lcPfx, status := lc.status, expDate := lc.expDate,
    expDays := lc.expDays, transition := lc.transition }

/-- A boto `BucketLogging` status. -/
structure BucketLogging where
  target : String
  logPfx : String
  grants : List String
deriving DecidableEq

/-- The dictionary `LoggingStatusToDict` builds (src/s3stats.py line 101). -/
structure LoggingDict where
  target : String
  logPfx : String
  grants : List String
deriving DecidableEq

def LoggingStatusToDict (loggingStatus : BucketLogging) : LoggingDict :=
  { target := loggingStatus.target, logPfx := loggingStatus.logPfx,
    grants := loggingStatus.grants }

/-- One bucket tag. -/
structure Tag where
  key : String
  value : String
deriving DecidableEq

/-- A boto bucket handle.  Metadata getters and the two listing methods are
collaborator calls that may raise; each is modelled by its outcome.  `list`
and `list_versions` take the key prefix they are called with. -/
structure Bucket where
  name : String
  creation_date : String
  lifecycleConfig : Except Err (List Lc)
  location : Except Err String
  loggingStatus : Except Err BucketLogging
  tags : Except Err (List Tag)
  versioningStatus : Except Err String
  list : String → Except Err (List Key)
  list_versions : String → Except Err (List Key)

/-- The statistics dictionary `Stats` builds for one bucket.  The detail-mode
keys (`lifecycle`, `location`, `logging`, `tags`, `version`) are `Option`
fields: `none` means the key is absent from the dictionary. -/
structure Aggregate where
  name : String
  creationDate : String
  numberOfFiles : Nat
  sizeOfFiles : Nat
  modifiedDate : String
  storageClasses : List (String × SubCount)
  encrypted : List (String × SubCount)
  lifecycle : Option (List (String × LcDict))
  location : Option String
  logging : Option LoggingDict
  tags : Option (List (String × String))
  version : Option String
deriving DecidableEq

/-- A filter pattern as the two engines see it: the raw string (used by the
glob engine) together with the outcome of compiling it as a regular
expression (used by the regex engine; `.error` models a syntactically invalid
pattern, for which `re.match` raises at its first call). -/
structure Pattern where
  raw : String
  compiled : Except Err Regex

/-- The command-line argument bundle, restricted to the fields the collection
and rendering code reads.  `pfx` is the source's `args.prefix`. -/
structure Args where
  filter : Pattern
  filterRe : Bool
  pfx : String
  sumPrevVersions : Bool
  bucketDetails : Bool
  human : Bool
  byRegion : Bool
  byStorageType : Bool
  byEncryption : Bool

/-- The Matcher contract: `Matches(pattern, name, isRegex)`.  This is the
per-name test `ApplyFilters` runs — `re.match(pattern, name)` when `isRegex`,
else `fnmatch(name, pattern)`. -/
def Matches (pattern : Pattern) (name : String) (isRegex : Bool) : Except Err Bool :=
  if isRegex then
    match pattern.compiled with
    | .error e => .error e
    | .ok r => .ok (reMatch r name.data)
  else
    .ok (fnmatchB name pattern.raw)

/-- A Python list comprehension with a fallible condition: the condition is
evaluated left to right and its first exception propagates. -/
def filterME (f : Key → Except Err Bool) : List Key → Except Err (List Key)
  | [] => .ok []
  | b :: bs =>
      match f b with
      | .error e => .error e
      | .ok true =>
          match filterME f bs with
          | .error e => .error e
          | .ok l => .ok (b :: l)
      | .ok false => filterME f bs

/-- `ApplyFilters` (src/s3stats.py line 205): filter the items by
`re.match(pattern, b.name)` when `regex`, else by `fnmatch(b.name, pattern)`. -/
def ApplyFilters (pattern : Pattern) (items : List Key) (regex : Bool) :
    Except Err (List Key) :=
  if regex then
    filterME (fun b =>
      match pattern.compiled with
      | .error e => .error e
      | .ok r => .ok (reMatch r b.name.data)) items
  else
    .ok (items.filter fun b => fnmatchB b.name pattern.raw)

/-- Lexicographic comparison of characters, Python's `<` on strings. -/
def listLtB : List Char → List Char → Bool
  | [], [] => false
  | [], _ :: _ => true
  | _ :: _, [] => false
  | a :: as, b :: bs =>
      if a < b then true else if b < a then false else listLtB as bs

/-- Python's `s1 < s2` on strings (the source tests
`key.last_modified > result["modifiedDate"]`, i.e. this with the arguments
swapped). -/
def strLtB (a b : String) : Bool := listLtB a.data b.data

/-- The fresh statistics dictionary `Stats` starts from
(src/s3stats.py lines 143-151). -/
def initResult (bucket : Bucket) : Aggregate :=
  { name := bucket.name, creationDate := bucket.creation_date,
    numberOfFiles := 0, sizeOfFiles := 0, modifiedDate := "",
    storageClasses := [], encrypted := [],
    lifecycle := none, location := none, logging := none, tags := none,
    version := none }

/-- The detail-mode block of `Stats` (src/s3stats.py lines 153-165): the
lifecycle fetch sits in a bare `try ... except: pass`, so its failure leaves
the key absent; the location / logging / tags / versioning fetches are
unprotected, so their exceptions propagate.  An empty location string is
normalized to `"DEFAULT"`. -/
def addDetails (bucket : Bucket) (r : Aggregate) : Except Err Aggregate :=
  let r1 :=
    match bucket.lifecycleConfig with
    | .error _ => r
    | .ok lcs =>
        { r with lifecycle := some (lcs.map fun (lc : Lc) => (lc.id, LifecycleToDict lc)) }
  match bucket.location with
  | .error e => .error e
  | .ok loc =>
      let loc2 := if loc = "" then "DEFAULT" else loc
      match bucket.loggingStatus with
      | .error e => .error e
      | .ok lg =>
          match bucket.tags with
          | .error e => .error e
          | .ok ts =>
              match bucket.versioningStatus with
              | .error e => .error e
              | .ok vs =>
                  .ok { r1 with
                        location := some loc2,
                        logging := some (LoggingStatusToDict lg),
                        tags := some (ts.map fun (t : Tag) => (t.key, t.value)),
                        version := some vs }

/-- `Lister` (src/s3stats.py line 117): pick the version-aware or the plain
listing method. -/
def Lister (bucket : Bucket) (versions : Bool) : String → Except Err (List Key) :=
  if versions then bucket.list_versions else bucket.list

/-- One iteration of the key loop of `Stats` (src/s3stats.py lines 167-180):
filter the key; on a match bump the totals, both breakdowns, and the
most-recent-modified timestamp. -/
def statsStep (pat : Pattern) (rgx : Bool) (acc : Aggregate) (key : Key) :
    Except Err Aggregate :=
  match ApplyFilters pat [key] rgx with
  | .error e => .error e
  | .ok matched =>
      if matched.length > 0 then
        .ok { acc with
          numberOfFiles := acc.numberOfFiles + 1,
          sizeOfFiles := acc.sizeOfFiles + key.size,
          storageClasses := bump acc.storageClasses key.storage_class key.size,
          encrypted := bump acc.encrypted key.encrypted key.size,
          modifiedDate :=
            if strLtB acc.modifiedDate key.last_modified then key.last_modified
            else acc.modifiedDate }
      else .ok acc

/-- The key loop of `Stats`, folded over the listed keys. -/
def foldStats (pat : Pattern) (rgx : Bool) : List Key → Aggregate → Except Err Aggregate
  | [], acc => .ok acc
  | k :: ks, acc =>
      match statsStep pat rgx acc k with
      | .error e => .error e
      | .ok acc2 => foldStats pat rgx ks acc2

/-- `Stats` (src/s3stats.py line 131): build the per-bucket statistics
dictionary — optional detail block, then the filtered key loop over the
chosen listing. -/
def Stats (bucket : Bucket) (args : Args) : Except Err Aggregate :=
  match (if args.bucketDetails then addDetails bucket (initResult bucket)
         else .ok (initResult bucket)) with
  | .error e => .error e
  | .ok r =>
      match Lister bucket args.sumPrevVersions args.pfx with
      | .error e => .error e
      | .ok keys => foldStats args.filter args.filterRe keys r

/-- `pool.map(partial(Stats, args=args), buckets)` by its observable value:
per-bucket results in input order; a worker exception is re-raised by `map`
and the gathered results are discarded. -/
def mapStatsE (args : Args) : List Bucket → Except Err (List Aggregate)
  | [] => .ok []
  | b :: bs =>
      match Stats b args with
      | .error e => .error e
      | .ok a =>
          match mapStatsE args bs with
          | .error e => .error e
          | .ok l => .ok (a :: l)

/-- `ParallelStats` (src/s3stats.py line 187): run `Stats` on every bucket on
a pool of `threads` workers.  The thread count bounds concurrency only; the
returned value does not depend on it. -/
def ParallelStats (buckets : List Bucket) (args : Args) (threads : Nat) :
    Except Err (List Aggregate) :=
  mapStatsE args buckets

/-! ## Result rendering

`PrintResults` (src/s3stats.py line 223) builds one of four tables.  The
model keeps the data of each emitted row: the two-decimal formatting of the
percentage cell is elided (the exact rational is kept), and the
human-readable transform of the external `hurry.filesize.size` call is kept
symbolic (`SizeCell.human n` stands for its output on `n`).  The percentage
cell computes `float(part) / float(total) * 100`; CPython raises
`ZeroDivisionError` when `total` is zero, modelled as `.error`.  Accessing
`result["location"]` on a dictionary without that key raises `KeyError`. -/

/-- A size cell: the raw byte count, or the external human-readable rendering
of it (when `--human-readable` is set). -/
inductive SizeCell where
  | raw (n : Nat) : SizeCell
  | human (n : Nat) : SizeCell
deriving DecidableEq

/-- `size(n) if args.human else n`. -/
def sizeCell (human : Bool) (n : Nat) : SizeCell :=
  if human then .human n else .raw n

/-- The value of the percentage cell when the division is defined. -/
def pctVal (part total : Nat) : Rat :=
  (part : Rat) / (total : Rat) * 100

/-- `float(part) / float(total) * 100`: a `ZeroDivisionError` when the grand
total is zero, the rational value otherwise. -/
def pctOfTotal (part total : Nat) : Except Err Rat :=
  if total = 0 then .error .zeroDivision else .ok (pctVal part total)

/-- `result["location"]`: raises `KeyError` when the key was never assigned
(it is assigned only in detail mode). -/
def getLoc (r : Aggregate) : Except Err String :=
  match r.location with
  | some l => .ok l
  | none => .error .keyError

/-- A row of the default (per-bucket) table. -/
structure DefRow where
  region : String
  bucketName : String
  numberOfFiles : Nat
  sizeOfFiles : SizeCell
  pct : Rat
deriving DecidableEq

/-- A row of the by-region table. -/
structure RegionRow where
  region : String
  numberOfFiles : Nat
  sizeOfFiles : SizeCell
  pct : Rat
deriving DecidableEq

/-- A row of the by-storage-class or by-encryption table. -/
structure GroupRow where
  region : String
  bucketName : String
  groupKey : String
  numberOfFiles : Nat
  sizeOfFiles : SizeCell
  pct : Rat
deriving DecidableEq

/-- The hardcoded trailing row: total count, total size, and the literal
`"100.00%"` text. -/
structure TotalRow where
  numberOfFiles : Nat
  sizeOfFiles : SizeCell
  pctText : String
deriving DecidableEq

/-- The rows of the default table (src/s3stats.py lines 312-317): one row per
bucket carrying its location, name, totals, and share of the grand total. -/
def defaultRowsGo (human : Bool) (total : Nat) :
    List Aggregate → Except Err (List DefRow)
  | [] => .ok []
  | r :: rest =>
      match getLoc r with
      | .error e => .error e
      | .ok loc =>
          match pctOfTotal r.sizeOfFiles total with
          | .error e => .error e
          | .ok p =>
              match defaultRowsGo human total rest with
              | .error e => .error e
              | .ok rows =>
                  .ok ({ region := loc, bucketName := r.name,
                         numberOfFiles := r.numberOfFiles,
                         sizeOfFiles := sizeCell human r.sizeOfFiles,
                         pct := p } :: rows)

/-- `set([ r["location"] for r in results ])`: the location of every result
(raising on a missing key), deduplicated. -/
def mapLocs : List Aggregate → Except Err (List String)
  | [] => .ok []
  | r :: rest =>
      match getLoc r with
      | .error e => .error e
      | .ok loc =>
          match mapLocs rest with
          | .error e => .error e
          | .ok ls => .ok (loc :: ls)

/-- The per-region loop of the by-region table (src/s3stats.py lines
243-250): per region, the summed count and size of the matching buckets and
their share of the grand total. -/
def regionRowsGo (human : Bool) (results : List Aggregate) (total : Nat) :
    List String → Except Err (List RegionRow)
  | [] => .ok []
  | region :: regs =>
      let inRegion := results.filter fun r => r.location == some region
      let rn := (inRegion.map Aggregate.numberOfFiles).sum
      let rs := (inRegion.map Aggregate.sizeOfFiles).sum
      match pctOfTotal rs total with
      | .error e => .error e
      | .ok p =>
          match regionRowsGo human results total regs with
          | .error e => .error e
          | .ok rows =>
              .ok ({ region := region, numberOfFiles := rn,
                     sizeOfFiles := sizeCell human rs, pct := p } :: rows)

/-- The by-region table rows.  Python's `set` iterates in no specified order;
the model fixes one deduplicated order. -/
def regionRows (human : Bool) (results : List Aggregate) (total : Nat) :
    Except Err (List RegionRow) :=
  match mapLocs results with
  | .error e => .error e
  | .ok locs => regionRowsGo human results total locs.dedup

/-- The inner loop of the grouped tables (src/s3stats.py lines 266-272 and
290-296): one row per breakdown key of this bucket, each carrying the
bucket's location, name, the key, and the bucket's own total count, size and
share. -/
def innerRows (human : Bool) (total : Nat) (r : Aggregate) :
    List (String × SubCount) → Except Err (List GroupRow)
  | [] => .ok []
  | (k, _) :: ks =>
      match getLoc r with
      | .error e => .error e
      | .ok loc =>
          match pctOfTotal r.sizeOfFiles total with
          | .error e => .error e
          | .ok p =>
              match innerRows human total r ks with
              | .error e => .error e
              | .ok rows =>
                  .ok ({ region := loc, bucketName := r.name, groupKey := k,
                         numberOfFiles := r.numberOfFiles,
                         sizeOfFiles := sizeCell human r.sizeOfFiles,
                         pct := p } :: rows)

/-- The outer loop of the grouped tables: the inner rows of every bucket, in
order. -/
def groupRows (human : Bool) (total : Nat)
    (sel : Aggregate → List (String × SubCount)) :
    List Aggregate → Except Err (List GroupRow)
  | [] => .ok []
  | r :: rest =>
      match innerRows human total r (sel r) with
      | .error e => .error e
      | .ok rows1 =>
          match groupRows human total sel rest with
          | .error e => .error e
          | .ok rows2 => .ok (rows1 ++ rows2)

/-- The by-storage-class table rows (src/s3stats.py lines 265-272). -/
def byStorageRows (human : Bool) (results : List Aggregate) :
    Except Err (List GroupRow) :=
  groupRows human ((results.map Aggregate.sizeOfFiles).sum)
    Aggregate.storageClasses results

/-- The by-encryption table rows (src/s3stats.py lines 289-296). -/
def byEncryptionRows (human : Bool) (results : List Aggregate) :
    Except Err (List GroupRow) :=
  groupRows human ((results.map Aggregate.sizeOfFiles).sum)
    Aggregate.encrypted results

/-- One of the four tables `PrintResults` can emit. -/
inductive TableOut where
  | region (rows : List RegionRow) (total : TotalRow) : TableOut
  | byStorage (rows : List GroupRow) (total : TotalRow) : TableOut
  | byEncryption (rows : List GroupRow) (total : TotalRow) : TableOut
  | plain (rows : List DefRow) (total : TotalRow) : TableOut
deriving DecidableEq

/-- `PrintResults` (src/s3stats.py line 223): compute the grand totals, then
build the table selected by the grouping flags; every data row of the
selected table is evaluated (any `ZeroDivisionError` or `KeyError` raised
while building a row propagates), and the trailing total row carries the
literal `"100.00%"`. -/
def PrintResults (args : Args) (results : List Aggregate) :
    Except Err TableOut :=
  let numberOfFiles := (results.map Aggregate.numberOfFiles).sum
  let sizeOfFiles := (results.map Aggregate.sizeOfFiles).sum
  let totalRow : TotalRow :=
    { numberOfFiles := numberOfFiles,
      sizeOfFiles := sizeCell args.human sizeOfFiles,
      pctText := "100.00%" }
  if args.byRegion then
    match regionRows args.human results sizeOfFiles with
    | .error e => .error e
    | .ok rows => .ok (.region rows totalRow)
  else if args.byStorageType then
    match byStorageRows args.human results with
    | .error e => .error e
    | .ok rows => .ok (.byStorage rows totalRow)
  else if args.byEncryption then
    match byEncryptionRows args.human results with
    | .error e => .error e
    | .ok rows => .ok (.byEncryption rows totalRow)
  else
    match defaultRowsGo args.human sizeOfFiles results with
    | .error e => .error e
    | .ok rows => .ok (.plain rows totalRow)

/-! ## Statement helpers and concrete fixtures -/

/-- The compiled form of a regular expression consisting only of literal
characters (such as the patterns `abc` and `xyz`): the concatenation of their
single-character tests. -/
def litRegex : List Char → Regex
  | [] => .eps
  | c :: cs => .cat (.tok (.lit c)) (litRegex cs)

/-- A pattern used in glob mode; the glob engine reads only the raw string,
so the regex-compilation field is irrelevant there. -/
def globPat (s : String) : Pattern := { raw := s, compiled := .ok .eps }

/-- Sum of the per-key object counts of a breakdown dictionary. -/
def sumCounts (m : List (String × SubCount)) : Nat :=
  (m.map fun kv => kv.2.numberOfFiles).sum

/-- Sum of the per-key sizes of a breakdown dictionary. -/
def sumSizes (m : List (String × SubCount)) : Nat :=
  (m.map fun kv => kv.2.sizeOfFiles).sum

/-- Baseline arguments: match-everything glob filter, no detail mode, plain
table. -/
def argsBase : Args :=
  { filter := globPat "*", filterRe := false, pfx := "",
    sumPrevVersions := false, bucketDetails := false, human := false,
    byRegion := false, byStorageType := false, byEncryption := false }

/-- A syntactically invalid regular expression (such as `(`): compilation
fails, so the first `re.match` call raises. -/
def invalidPat : Pattern := { raw := "(", compiled := .error .reError }

/-- A bucket whose metadata fetches succeed (no lifecycle configuration) and
whose listings both yield the given outcome. -/
def mkBucket (nm : String) (keys : Except Err (List Key)) : Bucket :=
  { name := nm, creation_date := "2016-08-01T00:00:00.000Z",
    lifecycleConfig := .error (.boto "NoSuchLifecycleConfiguration"),
    location := .ok "us-east-1",
    loggingStatus := .ok { target := "", logPfx := "", grants := [] },
    tags := .ok [], versioningStatus := .ok "",
    list := fun _ => keys, list_versions := fun _ => keys }

/-- An object with the given name and modification timestamp. -/
def tsKey (nm lm : String) : Key :=
  { name := nm, size := 1, storage_class := "STANDARD", encrypted := "None",
    last_modified := lm }

/-- A bucket listing three objects whose timestamps arrive in the order
`[t1, t3, t2]`. -/
def tsBucket (t1 t3 t2 : String) : Bucket :=
  mkBucket "tsb" (.ok [tsKey "o1" t1, tsKey "o3" t3, tsKey "o2" t2])

/-- The three objects of the concrete scenario: two `.log` objects in
distinct storage classes and encryption states, one `.txt` object. -/
def keyA : Key :=
  { name := "a.log", size := 100, storage_class := "STANDARD",
    encrypted := "False", last_modified := "2016-08-01T10:00:00.000Z" }

def keyB : Key :=
  { name := "b.log", size := 200, storage_class := "GLACIER",
    encrypted := "True", last_modified := "2016-08-02T10:00:00.000Z" }

def keyC : Key :=
  { name := "c.txt", size := 50, storage_class := "STANDARD",
    encrypted := "False", last_modified := "2016-08-03T10:00:00.000Z" }

def bLogs : Bucket := mkBucket "logs" (.ok [keyA, keyB, keyC])

/-- `--filter "*.log"` in glob mode. -/
def argsLog : Args := { argsBase with filter := globPat "*.log" }

/-- The aggregate `Stats` produces for `bLogs` under `argsLog`. -/
def aggLogs : Aggregate :=
  { name := "logs", creationDate := "2016-08-01T00:00:00.000Z",
    numberOfFiles := 2, sizeOfFiles := 300,
    modifiedDate := "2016-08-02T10:00:00.000Z",
    storageClasses :=
      [("STANDARD", { numberOfFiles := 1, sizeOfFiles := 100 }),
       ("GLACIER", { numberOfFiles := 1, sizeOfFiles := 200 })],
    encrypted :=
      [("False", { numberOfFiles := 1, sizeOfFiles := 100 }),
       ("True", { numberOfFiles := 1, sizeOfFiles := 200 })],
    lifecycle := none, location := none, logging := none, tags := none,
    version := none }

/-- `aggLogs` as a detail-mode result would carry it: with a location key. -/
def aggLogsLoc : Aggregate := { aggLogs with location := some "us-east-1" }

/-- An aggregate of an empty bucket, with its location key present. -/
def aggZ : Aggregate :=
  { name := "empty", creationDate := "2016-08-01T00:00:00.000Z",
    numberOfFiles := 0, sizeOfFiles := 0, modifiedDate := "",
    storageClasses := [], encrypted := [], lifecycle := none,
    location := some "DEFAULT", logging := none, tags := none,
    version := none }

/-- Three buckets for the isolation scenario: the middle one fails
enumeration. -/
def bOk1 : Bucket := mkBucket "b1" (.ok [])

def bFail : Bucket := mkBucket "b2" (.error (.boto "AccessDenied"))

def bOk2 : Bucket := mkBucket "b3" (.ok [])

/-- An empty bucket and a one-object bucket, for the invalid-pattern
scenario. -/
def bEmpty : Bucket := mkBucket "be" (.ok [])

def bOne : Bucket := mkBucket "bo" (.ok [tsKey "x" "2016-08-01T00:00:00.000Z"])

/-- Invalid regex filter, regex flag set. -/
def argsInv : Args := { argsBase with filter := invalidPat, filterRe := true }

/-- Detail mode on. -/
def argsDetail : Args := { argsBase with bucketDetails := true }

/-- A bucket whose location fetch fails. -/
def bLocErr : Bucket :=
  { mkBucket "m" (.ok []) with location := .error (.boto "AccessDenied") }

/-- A bucket whose only object fails the `*.log` filter. -/
def bTxt : Bucket := mkBucket "txts" (.ok [keyC])

/-! ## Correctness of the matcher engines -/

theorem accepts_emptypat_inv {s : List Char} (h : Accepts .emptypat s) : False := by
  cases h

theorem accepts_eps_inv {s : List Char} (h : Accepts .eps s) : s = [] := by
  cases h; rfl

theorem accepts_tok_inv {t : CTok} {s : List Char} (h : Accepts (.tok t) s) :
    ∃ c, s = [c] ∧ ctest t c = true := by
  cases h with
  | tok hc => exact ⟨_, rfl, hc⟩

theorem accepts_cat_inv {r1 r2 : Regex} {s : List Char}
    (h : Accepts (.cat r1 r2) s) :
    ∃ s1 s2, s = s1 ++ s2 ∧ Accepts r1 s1 ∧ Accepts r2 s2 := by
  cases h with
  | cat h1 h2 => exact ⟨_, _, rfl, h1, h2⟩

theorem accepts_alt_inv {r1 r2 : Regex} {s : List Char}
    (h : Accepts (.alt r1 r2) s) : Accepts r1 s ∨ Accepts r2 s := by
  cases h with
  | altL h => exact Or.inl h
  | altR h => exact Or.inr h

theorem accepts_star_inv {r : Regex} {s : List Char}
    (h : Accepts (.star r) s) :
    s = [] ∨ ∃ c s1 s2, s = c :: s1 ++ s2 ∧ Accepts r (c :: s1) ∧ Accepts (.star r) s2 := by
  cases h with
  | starNil => exact Or.inl rfl
  | starCons h1 h2 => exact Or.inr ⟨_, _, _, rfl, h1, h2⟩

theorem nullable_iff (r : Regex) : nullable r = true ↔ Accepts r [] := by
  induction r with
  | emptypat =>
      exact ⟨fun h => by simp [nullable] at h,
             fun h => absurd h accepts_emptypat_inv⟩
  | eps => exact ⟨fun _ => .eps, fun _ => rfl⟩
  | tok t =>
      refine ⟨fun h => by simp [nullable] at h, fun h => ?_⟩
      rcases accepts_tok_inv h with ⟨c, hc, _⟩
      exact absurd hc (by simp)
  | cat r1 r2 ih1 ih2 =>
      constructor
      · intro h
        simp only [nullable, Bool.and_eq_true] at h
        have := Accepts.cat (ih1.mp h.1) (ih2.mp h.2)
        simpa using this
      · intro h
        rcases accepts_cat_inv h with ⟨s1, s2, hs, h1, h2⟩
        rcases List.append_eq_nil.mp hs.symm with ⟨e1, e2⟩
        subst e1; subst e2
        simp only [nullable, Bool.and_eq_true]
        exact ⟨ih1.mpr h1, ih2.mpr h2⟩
  | alt r1 r2 ih1 ih2 =>
      constructor
      · intro h
        simp only [nullable, Bool.or_eq_true] at h
        rcases h with h | h
        · exact .altL (ih1.mp h)
        · exact .altR (ih2.mp h)
      · intro h
        rcases accepts_alt_inv h with h | h
        · simp only [nullable, Bool.or_eq_true]
          exact Or.inl (ih1.mpr h)
        · simp only [nullable, Bool.or_eq_true]
          exact Or.inr (ih2.mpr h)
  | star r ih => exact ⟨fun _ => .starNil, fun _ => rfl⟩

theorem rderiv_iff (r : Regex) (c : Char) :
    ∀ s : List Char, Accepts (rderiv r c) s ↔ Accepts r (c :: s) := by
  induction r with
  | emptypat =>
      intro s
      simp only [rderiv]
      exact ⟨fun h => absurd h accepts_emptypat_inv,
             fun h => absurd h accepts_emptypat_inv⟩
  | eps =>
      intro s
      simp only [rderiv]
      constructor
      · intro h; exact absurd h accepts_emptypat_inv
      · intro h; exact absurd (accepts_eps_inv h) (by simp)
  | tok t =>
      intro s
      simp only [rderiv]
      by_cases hc : ctest t c = true
      · rw [if_pos hc]
        constructor
        · intro h; rw [accepts_eps_inv h]; exact .tok hc
        · intro h
          rcases accepts_tok_inv h with ⟨c', hc', _⟩
          have : s = [] := by
            simpa using congrArg List.tail hc'
          rw [this]; exact .eps
      · rw [if_neg hc]
        constructor
        · intro h; exact absurd h accepts_emptypat_inv
        · intro h
          rcases accepts_tok_inv h with ⟨c', hc', ht⟩
          have hcc : c = c' := by
            simpa using congrArg List.head? hc'
          exact absurd (hcc ▸ ht) hc
  | cat r1 r2 ih1 ih2 =>
      intro s
      simp only [rderiv]
      constructor
      · intro h
        by_cases hn : nullable r1 = true
        · rw [if_pos hn] at h
          rcases accepts_alt_inv h with h | h
          · rcases accepts_cat_inv h with ⟨s1, s2, hs, h1, h2⟩
            rw [hs, ← List.cons_append]
            exact Accepts.cat ((ih1 s1).mp h1) h2
          · exact ((List.nil_append (c :: s)).symm ▸
              Accepts.cat ((nullable_iff r1).mp hn) ((ih2 s).mp h))
        · rw [if_neg hn] at h
          rcases accepts_cat_inv h with ⟨s1, s2, hs, h1, h2⟩
          rw [hs, ← List.cons_append]
          exact Accepts.cat ((ih1 s1).mp h1) h2
      · intro h
        rcases accepts_cat_inv h with ⟨s1, s2, hs, h1, h2⟩
        cases s1 with
        | nil =>
            have hn : nullable r1 = true := (nullable_iff r1).mpr h1
            rw [if_pos hn]
            have hs2 : s2 = c :: s := by simpa using hs.symm
            exact .altR ((ih2 s).mpr (hs2 ▸ h2))
        | cons c1 s1' =>
            simp only [List.cons_append, List.cons.injEq] at hs
            have h1' : Accepts (rderiv r1 c) s1' := (ih1 s1').mpr (hs.1 ▸ h1)
            have hgoal : Accepts (.cat (rderiv r1 c) r2) s := by
              rw [hs.2]
              exact Accepts.cat h1' h2
            by_cases hn : nullable r1 = true
            · rw [if_pos hn]; exact .altL hgoal
            · rw [if_neg hn]; exact hgoal
  | alt r1 r2 ih1 ih2 =>
      intro s
      simp only [rderiv]
      constructor
      · intro h
        rcases accepts_alt_inv h with h | h
        · exact .altL ((ih1 s).mp h)
        · exact .altR ((ih2 s).mp h)
      · intro h
        rcases accepts_alt_inv h with h | h
        · exact .altL ((ih1 s).mpr h)
        · exact .altR ((ih2 s).mpr h)
  | star r ih =>
      intro s
      simp only [rderiv]
      constructor
      · intro h
        rcases accepts_cat_inv h with ⟨s1, s2, hs, h1, h2⟩
        rw [hs, ← List.cons_append]
        exact .starCons ((ih s1).mp h1) h2
      · intro h
        rcases accepts_star_inv h with h | ⟨c', s1, s2, hs, h1, h2⟩
        · exact absurd h (by simp)
        · simp only [List.cons_append, List.cons.injEq] at hs
          have h1' : Accepts (rderiv r c) s1 := (ih s1).mpr (hs.1 ▸ h1)
          rw [hs.2]
          exact Accepts.cat h1' h2

theorem matchFull_iff (r : Regex) (s : List Char) :
    matchFull r s = true ↔ Accepts r s := by
  induction s generalizing r with
  | nil => simpa [matchFull] using nullable_iff r
  | cons c s ih =>
      simp only [matchFull, List.foldl_cons]
      have hstep := ih (rderiv r c)
      simp only [matchFull] at hstep
      rw [hstep]
      exact rderiv_iff r c s

/-- `re.match` succeeds exactly when some prefix of the input is in the
pattern's language: anchored at the start, the end left free. -/
theorem reMatch_iff (r : Regex) (s : List Char) :
    reMatch r s = true ↔ ∃ pre post, s = pre ++ post ∧ Accepts r pre := by
  induction s generalizing r with
  | nil =>
      simp only [reMatch, nullable_iff]
      constructor
      · intro h; exact ⟨[], [], rfl, h⟩
      · rintro ⟨pre, post, hs, hacc⟩
        rcases List.append_eq_nil.mp hs.symm with ⟨e1, _⟩
        exact e1 ▸ hacc
  | cons c s ih =>
      simp only [reMatch, Bool.or_eq_true, nullable_iff, ih]
      constructor
      · rintro (h | ⟨pre, post, hs, hacc⟩)
        · exact ⟨[], c :: s, rfl, h⟩
        · exact ⟨c :: pre, post, by rw [hs, List.cons_append],
            (rderiv_iff r c pre).mp hacc⟩
      · rintro ⟨pre, post, hs, hacc⟩
        cases pre with
        | nil =>
            left
            have : post = c :: s := by simpa using hs.symm
            exact hacc
        | cons c' pre' =>
            right
            simp only [List.cons_append, List.cons.injEq] at hs
            refine ⟨pre', post, hs.2, ?_⟩
            exact (rderiv_iff r c pre').mpr (hs.1 ▸ hacc)

theorem globRel_nil_inv {s : List Char} (h : GlobRel [] s) : s = [] := by
  cases h; rfl

theorem globRel_tok_inv {t : CTok} {p : List GTok} {s : List Char}
    (h : GlobRel (.tok t :: p) s) :
    ∃ c s', s = c :: s' ∧ ctest t c = true ∧ GlobRel p s' := by
  cases h with
  | tok hc hp => exact ⟨_, _, rfl, hc, hp⟩

theorem globRel_star_inv {p : List GTok} {s : List Char}
    (h : GlobRel (.star :: p) s) :
    ∃ s1 s2, s = s1 ++ s2 ∧ GlobRel p s2 := by
  cases h with
  | star hp => exact ⟨_, _, rfl, hp⟩

theorem accepts_star_any (s : List Char) : Accepts (.star (.tok .any)) s := by
  induction s with
  | nil => exact .starNil
  | cons c s ih =>
      have h1 : Accepts (.tok .any) [c] := .tok rfl
      exact Accepts.starCons h1 ih

/-- The translated regex of a token list accepts exactly the names the glob
semantics relates to it. -/
theorem toksRegex_iff (toks : List GTok) :
    ∀ s, Accepts (toksRegex toks) s ↔ GlobRel toks s := by
  induction toks with
  | nil =>
      intro s
      constructor
      · intro h; rw [accepts_eps_inv h]; exact .nil
      · intro h; rw [globRel_nil_inv h]; exact .eps
  | cons t p ih =>
      cases t with
      | star =>
          intro s
          constructor
          · intro h
            rcases accepts_cat_inv h with ⟨s1, s2, hs, _, h2⟩
            rw [hs]
            exact .star ((ih s2).mp h2)
          · intro h
            rcases globRel_star_inv h with ⟨s1, s2, hs, h2⟩
            rw [hs]
            exact Accepts.cat (accepts_star_any s1) ((ih s2).mpr h2)
      | tok ct =>
          intro s
          constructor
          · intro h
            rcases accepts_cat_inv h with ⟨s1, s2, hs, h1, h2⟩
            rcases accepts_tok_inv h1 with ⟨c, hc, hct⟩
            rw [hs, hc]
            exact GlobRel.tok hct ((ih s2).mp h2)
          · intro h
            rcases globRel_tok_inv h with ⟨c, s', hs, hct, hp⟩
            rw [hs]
            exact Accepts.cat (.tok hct) ((ih s').mpr hp)

/-- A single `*` glob matches every name. -/
theorem fnmatchB_star (nm : String) : fnmatchB nm "*" = true := by
  have htoks : globTokens "*".data = [GTok.star] := rfl
  rw [fnmatchB, htoks]
  rw [matchFull_iff]
  have : Accepts (toksRegex [GTok.star]) (nm.data ++ []) :=
    Accepts.cat (accepts_star_any nm.data) .eps
  simpa using this

/-! ## String comparison lemmas -/

theorem listLtB_nil_right (as : List Char) : listLtB as [] = false := by
  cases as <;> rfl

theorem listLtB_nil_left {bs : List Char} (h : bs ≠ []) : listLtB [] bs = true := by
  cases bs with
  | nil => exact absurd rfl h
  | cons b bs2 => rfl

theorem listLtB_asymm : ∀ {as bs : List Char},
    listLtB as bs = true → listLtB bs as = false := by
  intro as
  induction as with
  | nil =>
      intro bs h
      cases bs with
      | nil => simp [listLtB] at h
      | cons b bs2 => exact listLtB_nil_right _
  | cons a as ih =>
      intro bs h
      cases bs with
      | nil => simp [listLtB] at h
      | cons b bs2 =>
          simp only [listLtB] at h ⊢
          by_cases hab : a < b
          · have hba : ¬ b < a := lt_asymm hab
            simp [hab, hba]
          · by_cases hba : b < a
            · simp [hab, hba] at h
            · simp only [hab, hba, if_false] at h ⊢
              exact ih h

theorem listLtB_trans : ∀ {as bs cs : List Char},
    listLtB as bs = true → listLtB bs cs = true → listLtB as cs = true := by
  intro as
  induction as with
  | nil =>
      intro bs cs h1 h2
      cases bs with
      | nil => simp [listLtB] at h1
      | cons b bs2 =>
          cases cs with
          | nil => rw [listLtB_nil_right] at h2; exact absurd h2 (by simp)
          | cons c cs2 => rfl
  | cons a as ih =>
      intro bs cs h1 h2
      cases bs with
      | nil => simp [listLtB] at h1
      | cons b bs2 =>
          cases cs with
          | nil => rw [listLtB_nil_right] at h2; exact absurd h2 (by simp)
          | cons c cs2 =>
              simp only [listLtB] at h1 h2 ⊢
              by_cases hab : a < b
              · by_cases hbc : b < c
                · have hac : a < c := lt_trans hab hbc
                  simp [hac]
                · by_cases hcb : c < b
                  · simp [hbc, hcb] at h2
                  · have hbc2 : b = c := le_antisymm (not_lt.mp hcb) (not_lt.mp hbc)
                    subst hbc2
                    simp [hab]
              · by_cases hba : b < a
                · simp [hab, hba] at h1
                · have hab2 : a = b := le_antisymm (not_lt.mp hba) (not_lt.mp hab)
                  subst hab2
                  simp only [lt_irrefl, if_false] at h1 h2 ⊢
                  by_cases hac : a < c
                  · simp [hac]
                  · simp only [hac, if_false] at h2 ⊢
                    by_cases hca : c < a
                    · simp [hca] at h2
                    · simp only [hca, if_false] at h2 ⊢
                      exact ih h1 h2

theorem strLtB_trans {a b c : String} (h1 : strLtB a b = true)
    (h2 : strLtB b c = true) : strLtB a c = true :=
  listLtB_trans h1 h2

theorem strLtB_asymm {a b : String} (h : strLtB a b = true) :
    strLtB b a = false :=
  listLtB_asymm h

theorem strLtB_ne_nil {a b : String} (h : strLtB a b = true) : b.data ≠ [] := by
  intro he
  rw [strLtB, he, listLtB_nil_right] at h
  exact absurd h (by simp)

/-! ## Aggregation lemmas -/

theorem sumCounts_bump (m : List (String × SubCount)) (k : String) (sz : Nat) :
    sumCounts (bump m k sz) = sumCounts m + 1 := by
  induction m with
  | nil => rfl
  | cons kv rest ih =>
      obtain ⟨k2, v⟩ := kv
      by_cases hk : k2 = k
      · simp [bump, hk, sumCounts]
        omega
      · simp only [bump, hk, if_false, sumCounts, List.map_cons, List.sum_cons]
        simp only [sumCounts] at ih
        omega

theorem sumSizes_bump (m : List (String × SubCount)) (k : String) (sz : Nat) :
    sumSizes (bump m k sz) = sumSizes m + sz := by
  induction m with
  | nil => simp [bump, sumSizes]
  | cons kv rest ih =>
      obtain ⟨k2, v⟩ := kv
      by_cases hk : k2 = k
      · simp [bump, hk, sumSizes]
        omega
      · simp only [bump, hk, if_false, sumSizes, List.map_cons, List.sum_cons]
        simp only [sumSizes] at ih
        omega

theorem addDetails_scalars {bucket : Bucket} {r r2 : Aggregate}
    (h : addDetails bucket r = .ok r2) :
    r2.name = r.name ∧ r2.creationDate = r.creationDate ∧
    r2.numberOfFiles = r.numberOfFiles ∧ r2.sizeOfFiles = r.sizeOfFiles ∧
    r2.modifiedDate = r.modifiedDate ∧ r2.storageClasses = r.storageClasses ∧
    r2.encrypted = r.encrypted := by
  rcases hlc : bucket.lifecycleConfig with e1 | lcs <;>
  rcases hloc : bucket.location with e2 | loc <;>
  rcases hlg : bucket.loggingStatus with e3 | lg <;>
  rcases hts : bucket.tags with e4 | ts <;>
  rcases hvs : bucket.versioningStatus with e5 | vs <;>
  simp only [addDetails, hlc, hloc, hlg, hts, hvs] at h <;>
  first
  | (injection h with h2; subst h2; simp)
  | simp at h

theorem statsStep_lifecycle (pat : Pattern) (rgx : Bool) (acc : Aggregate)
    (key : Key) (x : Option (List (String × LcDict))) :
    statsStep pat rgx { acc with lifecycle := x } key
      = Except.map (fun a => { a with lifecycle := x })
          (statsStep pat rgx acc key) := by
  simp only [statsStep]
  rcases hAF : ApplyFilters pat [key] rgx with e | matched
  · rfl
  · by_cases hm : matched.length > 0
    · simp [hm, Except.map]
    · simp [hm, Except.map]

theorem foldStats_lifecycle (pat : Pattern) (rgx : Bool) :
    ∀ (keys : List Key) (acc : Aggregate) (x : Option (List (String × LcDict))),
      foldStats pat rgx keys { acc with lifecycle := x }
        = Except.map (fun a => { a with lifecycle := x })
            (foldStats pat rgx keys acc) := by
  intro keys
  induction keys with
  | nil => intro acc x; rfl
  | cons k ks ih =>
      intro acc x
      simp only [foldStats]
      rw [statsStep_lifecycle]
      rcases h : statsStep pat rgx acc k with e | acc2
      · rfl
      · simp only [Except.map]
        exact ih acc2 x

theorem addDetails_lcErr (bucket : Bucket) (e : Err) (r : Aggregate) :
    addDetails { bucket with lifecycleConfig := .error e } r
      = Except.map (fun a => { a with lifecycle := r.lifecycle })
          (addDetails bucket r) := by
  rcases hlc : bucket.lifecycleConfig with e1 | lcs <;>
  rcases hloc : bucket.location with e2 | loc <;>
  rcases hlg : bucket.loggingStatus with e3 | lg <;>
  rcases hts : bucket.tags with e4 | ts <;>
  rcases hvs : bucket.versioningStatus with e5 | vs <;>
  simp [addDetails, hlc, hloc, hlg, hts, hvs, Except.map]

theorem foldStats_inv (pat : Pattern) (rgx : Bool) :
    ∀ (keys : List Key) (acc out : Aggregate),
      foldStats pat rgx keys acc = .ok out →
      acc.numberOfFiles = sumCounts acc.storageClasses →
      acc.numberOfFiles = sumCounts acc.encrypted →
      acc.sizeOfFiles = sumSizes acc.storageClasses →
      acc.sizeOfFiles = sumSizes acc.encrypted →
      out.numberOfFiles = sumCounts out.storageClasses ∧
      out.numberOfFiles = sumCounts out.encrypted ∧
      out.sizeOfFiles = sumSizes out.storageClasses ∧
      out.sizeOfFiles = sumSizes out.encrypted := by
  intro keys
  induction keys with
  | nil =>
      intro acc out h h1 h2 h3 h4
      injection h with h
      subst h
      exact ⟨h1, h2, h3, h4⟩
  | cons k ks ih =>
      intro acc out h h1 h2 h3 h4
      simp only [foldStats, statsStep] at h
      rcases hAF : ApplyFilters pat [k] rgx with e | matched
      · simp only [hAF] at h
        exact absurd h (by simp)
      · simp only [hAF] at h
        by_cases hm : matched.length > 0
        · simp only [hm, if_true] at h
          refine ih _ _ h ?_ ?_ ?_ ?_ <;>
            simp [sumCounts_bump, sumSizes_bump] <;> omega
        · simp only [hm, if_false] at h
          exact ih _ _ h h1 h2 h3 h4

theorem foldStats_nochange (pat : Pattern) (rgx : Bool) :
    ∀ (keys : List Key) (acc : Aggregate),
      (∀ k ∈ keys, ApplyFilters pat [k] rgx = .ok []) →
      foldStats pat rgx keys acc = .ok acc := by
  intro keys
  induction keys with
  | nil => intro acc _; rfl
  | cons k ks ih =>
      intro acc hf
      have h0 := hf k (List.mem_cons_self k ks)
      simp only [foldStats, statsStep, h0, List.length_nil, gt_iff_lt,
        lt_self_iff_false, if_false]
      exact ih acc fun k2 hk => hf k2 (List.mem_cons_of_mem _ hk)

theorem innerRows_ok (human : Bool) (total : Nat) (r : Aggregate) (loc : String)
    (hloc : r.location = some loc) (htot : total ≠ 0) :
    ∀ ks : List (String × SubCount),
      innerRows human total r ks
        = .ok (ks.map fun kv =>
            { region := loc, bucketName := r.name, groupKey := kv.1,
              numberOfFiles := r.numberOfFiles,
              sizeOfFiles := sizeCell human r.sizeOfFiles,
              pct := pctVal r.sizeOfFiles total }) := by
  intro ks
  induction ks with
  | nil => rfl
  | cons kv ks ih =>
      obtain ⟨k, v⟩ := kv
      simp [innerRows, getLoc, hloc, pctOfTotal, htot, ih]

theorem groupRows_ok (human : Bool) (total : Nat)
    (sel : Aggregate → List (String × SubCount)) (htot : total ≠ 0) :
    ∀ results : List Aggregate,
      (∀ r ∈ results, (Aggregate.location r).isSome = true) →
      groupRows human total sel results
        = .ok (results.flatMap fun r =>
            (sel r).map fun kv =>
              { region := (Aggregate.location r).getD "",
                bucketName := r.name, groupKey := kv.1,
                numberOfFiles := r.numberOfFiles,
                sizeOfFiles := sizeCell human r.sizeOfFiles,
                pct := pctVal r.sizeOfFiles total }) := by
  intro results
  induction results with
  | nil => intro _; rfl
  | cons r rest ih =>
      intro hl
      have hr := hl r (List.mem_cons_self r rest)
      rcases hloc : r.location with _ | loc
      · rw [hloc] at hr
        simp at hr
      · simp only [groupRows]
        rw [innerRows_ok human total r loc hloc htot]
        rw [ih fun r2 hr2 => hl r2 (List.mem_cons_of_mem _ hr2)]
        simp [hloc]

/-! ## The claims -/

/-- C1: the claim says a run whose grand total size is zero renders `0.00%`
(or "n/a") rows.  The code instead divides by the zero total: on a result set
with one empty bucket, both the default table and the by-region table raise
`ZeroDivisionError` while building their first data row. -/
theorem printResults_zero_total_division_error :
    PrintResults argsBase [aggZ] = .error .zeroDivision
    ∧ PrintResults { argsBase with byRegion := true } [aggZ]
        = .error .zeroDivision :=
  ⟨rfl, rfl⟩

/-- C2 counterexample: in a 3-bucket run whose middle bucket fails
enumeration, `ParallelStats` does not produce two successful aggregates and
one recorded failure — it returns the failing bucket's exception and no
per-bucket results at all, even though each sibling's collection succeeds on
its own. -/
theorem parallelStats_one_failure_aborts :
    ParallelStats [bOk1, bFail, bOk2] argsBase 8 = .error (.boto "AccessDenied")
    ∧ Stats bOk1 argsBase = .ok (initResult bOk1)
    ∧ Stats bOk2 argsBase = .ok (initResult bOk2) :=
  ⟨rfl, rfl, rfl⟩

/-- C2 amended: when exactly one bucket's collection fails, `pool.map`
re-raises that bucket's error as the result of the whole dispatch; the
sibling results are discarded and no per-bucket failure is recorded. -/
theorem parallelStats_failure_propagates (bs1 bs2 : List Bucket) (b : Bucket)
    (args : Args) (threads : Nat) (e : Err)
    (h1 : ∀ b2 ∈ bs1, ∃ a, Stats b2 args = .ok a)
    (h2 : Stats b args = .error e) :
    ParallelStats (bs1 ++ b :: bs2) args threads = .error e := by
  revert h1
  induction bs1 with
  | nil =>
      intro _
      simp only [List.nil_append, ParallelStats, mapStatsE, h2]
  | cons hd tl ih =>
      intro h1
      obtain ⟨a, ha⟩ := h1 hd (List.mem_cons_self hd tl)
      simp only [List.cons_append, List.append_eq, ParallelStats, mapStatsE, ha]
      have hih := ih fun b2 hb2 => h1 b2 (List.mem_cons_of_mem _ hb2)
      simp only [ParallelStats] at hih
      rw [hih]

/-- C2 amended, witnessed on the concrete 3-bucket run. -/
theorem parallelStats_failure_propagates_witness :
    ((∀ b2 ∈ [bOk1], ∃ a, Stats b2 argsBase = .ok a)
      ∧ Stats bFail argsBase = .error (.boto "AccessDenied"))
    ∧ ParallelStats ([bOk1] ++ bFail :: [bOk2]) argsBase 8
        = .error (.boto "AccessDenied") := by
  have h1 : ∀ b2 ∈ [bOk1], ∃ a, Stats b2 argsBase = .ok a := by
    intro b2 hb2
    rw [List.mem_singleton] at hb2
    subst hb2
    exact ⟨initResult bOk1, rfl⟩
  exact ⟨⟨h1, rfl⟩,
    parallelStats_failure_propagates [bOk1] [bOk2] bFail argsBase 8
      (.boto "AccessDenied") h1 rfl⟩

/-- C3 counterexample: with a syntactically invalid regex filter and the
regex flag set, there is no fail-fast `ConfigurationError` before enumeration
— a bucket with no objects completes successfully, and a bucket with one
object raises the regex engine's pattern error from inside the key loop. -/
theorem invalid_regex_no_failfast :
    Stats bEmpty argsInv = .ok (initResult bEmpty)
    ∧ Stats bOne argsInv = .error .reError :=
  ⟨rfl, rfl⟩

/-- C3 amended: an invalid regex filter pattern surfaces as the pattern error
raised at the first object tested during enumeration; an empty enumeration
raises nothing, so there is no validation before enumeration starts. -/
theorem invalid_regex_errors_during_enumeration (bucket : Bucket) (args : Args)
    (e : Err) (keys : List Key)
    (hre : args.filterRe = true)
    (hpat : args.filter.compiled = .error e)
    (hdet : args.bucketDetails = false)
    (hl : Lister bucket args.sumPrevVersions args.pfx = .ok keys) :
    (keys = [] → Stats bucket args = .ok (initResult bucket))
    ∧ (∀ k ks, keys = k :: ks → Stats bucket args = .error e) := by
  constructor
  · intro hk
    subst hk
    simp only [Stats, hdet, Bool.false_eq_true, if_false, hl]
    rfl
  · intro k ks hk
    subst hk
    simp only [Stats, hdet, Bool.false_eq_true, if_false, hl, foldStats,
      statsStep, ApplyFilters, hre, if_true, filterME, hpat]

/-- C3 amended, witnessed on the one-object bucket. -/
theorem invalid_regex_errors_during_enumeration_witness :
    (argsInv.filterRe = true ∧ argsInv.filter.compiled = .error .reError
      ∧ argsInv.bucketDetails = false
      ∧ Lister bOne argsInv.sumPrevVersions argsInv.pfx
          = .ok [tsKey "x" "2016-08-01T00:00:00.000Z"])
    ∧ Stats bOne argsInv = .error .reError := by
  refine ⟨⟨rfl, rfl, rfl, rfl⟩, ?_⟩
  exact (invalid_regex_errors_during_enumeration bOne argsInv .reError
      [tsKey "x" "2016-08-01T00:00:00.000Z"] rfl rfl rfl rfl).2
      (tsKey "x" "2016-08-01T00:00:00.000Z") [] rfl

/-- C6: with the regex flag set, the matcher applies the pattern anchored at
the start of the name and nowhere else, with the end left free: `reMatch`
succeeds exactly when some prefix of the input is in the pattern's language;
concretely, the literal pattern `abc` matches `abcdef` (prefix, not
full-string) and `xyz` does not match `abcxyz` (no search-anywhere). -/
theorem matches_regex_anchored_start :
    (∀ (r : Regex) (s : List Char),
       reMatch r s = true ↔ ∃ pre post, s = pre ++ post ∧ Accepts r pre)
    ∧ Matches { raw := "abc", compiled := .ok (litRegex "abc".data) }
        "abcdef" true = .ok true
    ∧ Matches { raw := "xyz", compiled := .ok (litRegex "xyz".data) }
        "abcxyz" true = .ok false :=
  ⟨reMatch_iff, rfl, rfl⟩

/-- C7: with the regex flag clear, the matcher applies shell-glob semantics
against the full name — anchored at both ends and case-sensitive: the
translated pattern accepts a name exactly when the glob relation over the
tokenized pattern does; concretely `*.log` matches `a.log`, does not match
`a.txt`, and `*.LOG` does not match `a.log`. -/
theorem matches_glob_full_anchored :
    (∀ (pat : Pattern) (name : String),
       Matches pat name false = .ok true
         ↔ GlobRel (globTokens pat.raw.data) name.data)
    ∧ Matches (globPat "*.log") "a.log" false = .ok true
    ∧ Matches (globPat "*.log") "a.txt" false = .ok false
    ∧ Matches (globPat "*.LOG") "a.log" false = .ok false := by
  refine ⟨?_, rfl, rfl, rfl⟩
  intro pat name
  have h0 : Matches pat name false = .ok (fnmatchB name pat.raw) := rfl
  rw [h0]
  simp only [Except.ok.injEq]
  rw [fnmatchB, matchFull_iff]
  exact toksRegex_iff _ _

/-- C4: whatever object sequence a bucket's enumeration yields (in any
order), a successful `Stats` aggregate has its object count equal to the sum
of the per-key counts of the storage-class breakdown and of the encryption
breakdown, and its total size equal to the per-key size sums of each. -/
theorem stats_breakdown_additivity (bucket : Bucket) (args : Args)
    (agg : Aggregate) (h : Stats bucket args = .ok agg) :
    agg.numberOfFiles = sumCounts agg.storageClasses ∧
    agg.numberOfFiles = sumCounts agg.encrypted ∧
    agg.sizeOfFiles = sumSizes agg.storageClasses ∧
    agg.sizeOfFiles = sumSizes agg.encrypted := by
  simp only [Stats] at h
  rcases hd : (if args.bucketDetails then addDetails bucket (initResult bucket)
      else .ok (initResult bucket)) with e | r0
  · simp only [hd] at h
    exact absurd h (by simp)
  · simp only [hd] at h
    rcases hL : Lister bucket args.sumPrevVersions args.pfx with e | keys
    · simp only [hL] at h
      exact absurd h (by simp)
    · simp only [hL] at h
      have hbase : r0.numberOfFiles = sumCounts r0.storageClasses ∧
          r0.numberOfFiles = sumCounts r0.encrypted ∧
          r0.sizeOfFiles = sumSizes r0.storageClasses ∧
          r0.sizeOfFiles = sumSizes r0.encrypted := by
        by_cases hdet : args.bucketDetails = true
        · rw [if_pos hdet] at hd
          obtain ⟨-, -, hn, hs, -, hsc, he⟩ := addDetails_scalars hd
          rw [hn, hs, hsc, he]
          simp [initResult, sumCounts, sumSizes]
        · rw [if_neg hdet] at hd
          injection hd with hd
          subst hd
          simp [initResult, sumCounts, sumSizes]
      exact foldStats_inv _ _ keys r0 agg h hbase.1 hbase.2.1 hbase.2.2.1
        hbase.2.2.2

/-- C4 witnessed on the concrete `logs` scenario: `a.log`/`b.log` pass the
`*.log` filter, `c.txt` does not. -/
theorem stats_breakdown_additivity_witness :
    Stats bLogs argsLog = .ok aggLogs
    ∧ (aggLogs.numberOfFiles = sumCounts aggLogs.storageClasses ∧
       aggLogs.numberOfFiles = sumCounts aggLogs.encrypted ∧
       aggLogs.sizeOfFiles = sumSizes aggLogs.storageClasses ∧
       aggLogs.sizeOfFiles = sumSizes aggLogs.encrypted) :=
  ⟨rfl, stats_breakdown_additivity bLogs argsLog aggLogs rfl⟩

/-- C5: the most-recent-modified timestamp never decreases across a
collection step (it stays or strictly increases), and feeding the timestamps
in the order `[T1, T3, T2]` with `T1 < T2 < T3` yields a final
`modifiedDate` of `T3`. -/
theorem stats_modifiedDate_monotone :
    (∀ (pat : Pattern) (rgx : Bool) (acc : Aggregate) (key : Key)
       (acc2 : Aggregate),
       statsStep pat rgx acc key = .ok acc2 →
       acc2.modifiedDate = acc.modifiedDate
         ∨ strLtB acc.modifiedDate acc2.modifiedDate = true)
    ∧ (∀ T1 T2 T3 : String, strLtB T1 T2 = true → strLtB T2 T3 = true →
        ∃ agg, Stats (tsBucket T1 T3 T2) argsBase = .ok agg
          ∧ agg.modifiedDate = T3) := by
  constructor
  · intro pat rgx acc key acc2 h
    simp only [statsStep] at h
    rcases hAF : ApplyFilters pat [key] rgx with e | matched
    · simp only [hAF] at h
      exact absurd h (by simp)
    · simp only [hAF] at h
      by_cases hm : matched.length > 0
      · simp only [hm, if_true] at h
        injection h with h
        subst h
        by_cases hlt : strLtB acc.modifiedDate key.last_modified = true
        · right
          simp [hlt]
        · left
          simp [hlt]
      · simp only [hm, if_false] at h
        injection h with h
        subst h
        exact Or.inl rfl
  · intro T1 T2 T3 h12 h23
    have l13 : strLtB T1 T3 = true := strLtB_trans h12 h23
    have l32 : strLtB T3 T2 = false := strLtB_asymm h23
    have hne : T3.data ≠ [] := strLtB_ne_nil h23
    have l03 : strLtB "" T3 = true := listLtB_nil_left hne
    by_cases h01 : strLtB "" T1 = true
    · refine ⟨_, rfl, ?_⟩
      simp [initResult, tsKey, h01, l13, l32]
    · refine ⟨_, rfl, ?_⟩
      simp [initResult, tsKey, h01, l03, l32]

/-- C5 witnessed on concrete timestamps. -/
theorem stats_modifiedDate_monotone_witness :
    (strLtB "2016-01-01" "2016-02-01" = true
      ∧ strLtB "2016-02-01" "2016-03-01" = true)
    ∧ ∃ agg, Stats (tsBucket "2016-01-01" "2016-03-01" "2016-02-01") argsBase
        = .ok agg ∧ agg.modifiedDate = "2016-03-01" :=
  ⟨⟨by decide, by decide⟩,
    stats_modifiedDate_monotone.2 "2016-01-01" "2016-02-01" "2016-03-01"
      (by decide) (by decide)⟩

/-- C8: a failing lifecycle fetch is swallowed locally — `Stats` behaves
exactly as on the same bucket with the lifecycle key dropped from the result
(the field is absent, never an error) — while a failure of any of the other
detail fetches (location, logging, tags, versioning) propagates and fails
that bucket's collection. -/
theorem stats_lifecycle_swallowed_details_propagate :
    (∀ (bucket : Bucket) (args : Args) (e : Err),
       Stats { bucket with lifecycleConfig := .error e } args
         = Except.map (fun a => { a with lifecycle := none })
             (Stats bucket args))
    ∧ (∀ (bucket : Bucket) (args : Args) (e : Err),
         args.bucketDetails = true → bucket.location = .error e →
         Stats bucket args = .error e)
    ∧ (∀ (bucket : Bucket) (args : Args) (e : Err) (loc : String),
         args.bucketDetails = true → bucket.location = .ok loc →
         bucket.loggingStatus = .error e → Stats bucket args = .error e)
    ∧ (∀ (bucket : Bucket) (args : Args) (e : Err) (loc : String)
         (lg : BucketLogging),
         args.bucketDetails = true → bucket.location = .ok loc →
         bucket.loggingStatus = .ok lg → bucket.tags = .error e →
         Stats bucket args = .error e)
    ∧ (∀ (bucket : Bucket) (args : Args) (e : Err) (loc : String)
         (lg : BucketLogging) (ts : List Tag),
         args.bucketDetails = true → bucket.location = .ok loc →
         bucket.loggingStatus = .ok lg → bucket.tags = .ok ts →
         bucket.versioningStatus = .error e → Stats bucket args = .error e) := by
  refine ⟨?_, ?_, ?_, ?_, ?_⟩
  · intro bucket args e
    by_cases hd : args.bucketDetails = true
    · simp only [Stats, hd, if_true]
      have h1 : initResult { bucket with lifecycleConfig := .error e }
          = initResult bucket := rfl
      rw [h1, addDetails_lcErr]
      have h2 : (initResult bucket).lifecycle = none := rfl
      rw [h2]
      rcases had : addDetails bucket (initResult bucket) with e2 | r0
      · rfl
      · simp only [Except.map]
        have h3 : Lister { bucket with lifecycleConfig := .error e }
            args.sumPrevVersions args.pfx
            = Lister bucket args.sumPrevVersions args.pfx := rfl
        rw [h3]
        rcases hL : Lister bucket args.sumPrevVersions args.pfx with e3 | keys
        · rfl
        · exact foldStats_lifecycle args.filter args.filterRe keys r0 none
    · simp only [Stats, hd, if_false]
      have h1 : initResult { bucket with lifecycleConfig := .error e }
          = initResult bucket := rfl
      rw [h1]
      have h3 : Lister { bucket with lifecycleConfig := .error e }
          args.sumPrevVersions args.pfx
          = Lister bucket args.sumPrevVersions args.pfx := rfl
      rw [h3]
      rcases hL : Lister bucket args.sumPrevVersions args.pfx with e3 | keys
      · rfl
      · have h4 := foldStats_lifecycle args.filter args.filterRe keys
          (initResult bucket) none
        have h5 : ({ initResult bucket with lifecycle := none } : Aggregate)
            = initResult bucket := rfl
        rw [h5] at h4
        exact h4
  · intro bucket args e hdet hloc
    simp only [Stats, hdet, if_true, addDetails, hloc]
  · intro bucket args e loc hdet hloc hlg
    simp only [Stats, hdet, if_true, addDetails, hloc, hlg]
  · intro bucket args e loc lg hdet hloc hlg hts
    simp only [Stats, hdet, if_true, addDetails, hloc, hlg, hts]
  · intro bucket args e loc lg ts hdet hloc hlg hts hvs
    simp only [Stats, hdet, if_true, addDetails, hloc, hlg, hts, hvs]

/-- C8, witnessed: a bucket whose location fetch fails makes detail-mode
collection fail with that error. -/
theorem stats_lifecycle_swallowed_details_propagate_witness :
    (argsDetail.bucketDetails = true
      ∧ bLocErr.location = .error (.boto "AccessDenied"))
    ∧ Stats bLocErr argsDetail = .error (.boto "AccessDenied") :=
  ⟨⟨rfl, rfl⟩,
    stats_lifecycle_swallowed_details_propagate.2.1 bLocErr argsDetail
      (.boto "AccessDenied") rfl rfl⟩

/-- C9: the by-storage-class view emits exactly one row per storage-class key
present in each bucket's breakdown, and every row carries that bucket's
whole-bucket total count and size (not the per-class figures); the
by-encryption view is structurally identical, keyed on encryption state. -/
theorem grouped_views_one_row_per_key_bucket_totals (human : Bool)
    (results : List Aggregate)
    (hloc : ∀ r ∈ results, (Aggregate.location r).isSome = true)
    (htot : (results.map Aggregate.sizeOfFiles).sum ≠ 0) :
    byStorageRows human results
      = .ok (results.flatMap fun r =>
          r.storageClasses.map fun kv =>
            { region := (Aggregate.location r).getD "", bucketName := r.name,
              groupKey := kv.1, numberOfFiles := r.numberOfFiles,
              sizeOfFiles := sizeCell human r.sizeOfFiles,
              pct := pctVal r.sizeOfFiles
                ((results.map Aggregate.sizeOfFiles).sum) })
    ∧ byEncryptionRows human results
      = .ok (results.flatMap fun r =>
          r.encrypted.map fun kv =>
            { region := (Aggregate.location r).getD "", bucketName := r.name,
              groupKey := kv.1, numberOfFiles := r.numberOfFiles,
              sizeOfFiles := sizeCell human r.sizeOfFiles,
              pct := pctVal r.sizeOfFiles
                ((results.map Aggregate.sizeOfFiles).sum) }) :=
  ⟨groupRows_ok human _ Aggregate.storageClasses htot results hloc,
   groupRows_ok human _ Aggregate.encrypted htot results hloc⟩

/-- C9, witnessed on a bucket with two storage classes and two encryption
states. -/
theorem grouped_views_one_row_per_key_bucket_totals_witness :
    ((∀ r ∈ [aggLogsLoc], (Aggregate.location r).isSome = true)
      ∧ ([aggLogsLoc].map Aggregate.sizeOfFiles).sum ≠ 0)
    ∧ (byStorageRows false [aggLogsLoc]
        = .ok ([aggLogsLoc].flatMap fun r =>
            r.storageClasses.map fun kv =>
              { region := (Aggregate.location r).getD "", bucketName := r.name,
                groupKey := kv.1, numberOfFiles := r.numberOfFiles,
                sizeOfFiles := sizeCell false r.sizeOfFiles,
                pct := pctVal r.sizeOfFiles
                  (([aggLogsLoc].map Aggregate.sizeOfFiles).sum) })
      ∧ byEncryptionRows false [aggLogsLoc]
        = .ok ([aggLogsLoc].flatMap fun r =>
            r.encrypted.map fun kv =>
              { region := (Aggregate.location r).getD "", bucketName := r.name,
                groupKey := kv.1, numberOfFiles := r.numberOfFiles,
                sizeOfFiles := sizeCell false r.sizeOfFiles,
                pct := pctVal r.sizeOfFiles
                  (([aggLogsLoc].map Aggregate.sizeOfFiles).sum) })) :=
  ⟨⟨by decide, by decide⟩,
    grouped_views_one_row_per_key_bucket_totals false [aggLogsLoc] (by decide)
      (by decide)⟩

/-- C10: a bucket whose enumeration yields no object passing the filter gets
an aggregate with a zero object count, zero total size, an empty
most-recent-modified timestamp, and empty storage-class and encryption
breakdowns. -/
theorem stats_empty_filter_default_aggregate (bucket : Bucket) (args : Args)
    (agg : Aggregate) (keys : List Key)
    (hl : Lister bucket args.sumPrevVersions args.pfx = .ok keys)
    (hf : ∀ k ∈ keys, ApplyFilters args.filter [k] args.filterRe = .ok [])
    (hs : Stats bucket args = .ok agg) :
    agg.numberOfFiles = 0 ∧ agg.sizeOfFiles = 0 ∧ agg.modifiedDate = ""
    ∧ agg.storageClasses = [] ∧ agg.encrypted = [] := by
  simp only [Stats] at hs
  rcases hd : (if args.bucketDetails then addDetails bucket (initResult bucket)
      else .ok (initResult bucket)) with e | r0
  · simp only [hd] at hs
    exact absurd hs (by simp)
  · simp only [hd, hl] at hs
    rw [foldStats_nochange args.filter args.filterRe keys r0 hf] at hs
    injection hs with hs
    subst hs
    by_cases hdet : args.bucketDetails = true
    · rw [if_pos hdet] at hd
      obtain ⟨-, -, hn, hsz, hmd, hsc, he⟩ := addDetails_scalars hd
      rw [hn, hsz, hmd, hsc, he]
      simp [initResult]
    · rw [if_neg hdet] at hd
      injection hd with hd
      subst hd
      simp [initResult]

/-- C10, witnessed: a bucket whose only object `c.txt` fails the `*.log`
filter yields the untouched default aggregate. -/
theorem stats_empty_filter_default_aggregate_witness :
    (Lister bTxt argsLog.sumPrevVersions argsLog.pfx = .ok [keyC]
      ∧ (∀ k ∈ [keyC], ApplyFilters argsLog.filter [k] argsLog.filterRe = .ok [])
      ∧ Stats bTxt argsLog = .ok (initResult bTxt))
    ∧ ((initResult bTxt).numberOfFiles = 0 ∧ (initResult bTxt).sizeOfFiles = 0
      ∧ (initResult bTxt).modifiedDate = ""
      ∧ (initResult bTxt).storageClasses = []
      ∧ (initResult bTxt).encrypted = []) := by
  have hf : ∀ k ∈ [keyC], ApplyFilters argsLog.filter [k] argsLog.filterRe
      = .ok [] := by
    intro k hk
    rw [List.mem_singleton] at hk
    subst hk
    rfl
  exact ⟨⟨rfl, hf, rfl⟩,
    stats_empty_filter_default_aggregate bTxt argsLog (initResult bTxt) [keyC]
      rfl hf rfl⟩
